import Mathlib

/-!
Verification of the Forensic Pulse client data-projection layer: the response
mappers (mapApiToAccounts / mapApiToRings / mapApiToTransactions), the network
graph model builder, the simulation overlay compositor and the simulator input
validation.  JS numbers are modelled as exact rationals; JS Map objects are
modelled as association lists with insertion-order semantics; the per-call
Math.random stream and the per-call clock are explicit parameters.
-/

/-- JS Math.round: floor of the value plus one half (ties round up). -/
def jround (q : ℚ) : ℤ := ⌊q + 1 / 2⌋

/-- Truncation toward zero, as used by the JS remainder operator. -/
def ratTrunc (q : ℚ) : ℤ := if 0 ≤ q then ⌊q⌋ else ⌈q⌉

/-- JS remainder operator on numbers: the sign follows the dividend. -/
def jsRem (a b : ℚ) : ℚ := a - b * (ratTrunc (a / b) : ℚ)

/-- JS String.prototype.slice with a negative start index: the last n characters. -/
def jsSliceLast (n : ℕ) (s : String) : String := ⟨s.data.drop (s.data.length - n)⟩

/-- JS String.prototype.padStart with a zero pad character. -/
def padStartZeros (n : ℕ) (s : String) : String := ⟨List.replicate (n - s.data.length) '0' ++ s.data⟩

/-- Index-aware list map, as the JS Array.prototype.map callback second argument. -/
def mapIdxFrom (f : ℕ → α → β) : ℕ → List α → List β
  | _, [] => []
  | n, a :: as => f n a :: mapIdxFrom f (n + 1) as

-- ── Backend response types (src/src/app/api.ts) ──

structure ApiSummary where
  total_accounts_analyzed : ℕ
  suspicious_accounts_flagged : ℕ
  fraud_rings_detected : ℕ
  processing_time_seconds : ℚ
  total_transactions : ℕ
  total_nodes : ℕ
  total_edges : ℕ
  circular_loops_found : ℕ
  smurfing_patterns_found : ℕ
  layering_chains_found : ℕ
  total_fraud_rings : ℕ
  high_risk_accounts : ℕ
  medium_risk_accounts : ℕ
  total_flagged_amount : ℚ
deriving DecidableEq

structure ApiSuspiciousAccount where
  account_id : String
  suspicion_score : ℚ
  detected_patterns : List String
  ring_id : String
  in_degree : ℕ
  out_degree : ℕ
  total_volume : ℚ
  transaction_count : ℕ
  ring_count : ℕ
  pattern_types : List String
  merchant_factor : ℚ
deriving DecidableEq

structure ApiFraudRing where
  ring_id : String
  pattern_type : String
  member_accounts : List String
  member_count : ℕ
  risk_score : ℚ
  total_amount : ℚ
  edges : List (String × String)
  center_node : Option String
deriving DecidableEq

structure ApiGraphNode where
  id : String
  suspicious : Bool
  suspicion_score : ℚ
  in_degree : ℕ
  out_degree : ℕ
  ring_ids : List String
  total_volume : ℚ
  transaction_count : ℕ
deriving DecidableEq

structure ApiGraphEdge where
  source : String
  target : String
  suspicious : Bool
  total_amount : ℚ
  count : ℕ
deriving DecidableEq

structure ApiGraph where
  nodes : List ApiGraphNode
  edges : List ApiGraphEdge
deriving DecidableEq

structure AnalysisResponse where
  suspicious_accounts : List ApiSuspiciousAccount
  fraud_rings : List ApiFraudRing
  summary : ApiSummary
  graph : ApiGraph
deriving DecidableEq

-- ── Frontend entity types (src/unnamed/part_001, mockData section) ──

inductive Direction where
  | dIn : Direction
  | dOut : Direction
deriving DecidableEq

structure Connection where
  targetId : String
  direction : Direction
  amount : ℚ
deriving DecidableEq

structure BehavioralDna where
  velocity : ℤ
  amtVariance : ℤ
  fanSymmetry : ℤ
  temporalCluster : ℤ
  hopDepth : ℤ
  amtDecay : ℤ
deriving DecidableEq

structure NetworkStats where
  totalIn : ℤ
  totalOut : ℤ
  txCount : ℕ
  avgHoldTime : ℚ
deriving DecidableEq

structure Account where
  id : String
  suspicionScore : ℚ
  inDegree : ℕ
  outDegree : ℕ
  volume : ℚ
  patterns : List String
  status : String
  ringId : Option String
  behavioralDna : BehavioralDna
  networkStats : NetworkStats
  connections : List Connection
deriving DecidableEq

structure FraudRing where
  id : String
  patternType : String
  memberCount : ℕ
  riskScore : ℚ
  accountIds : List String
deriving DecidableEq

structure Transaction where
  id : String
  source : String
  target : String
  amount : ℚ
  timestamp : String
  isFraud : Bool
deriving DecidableEq

-- ── JS Map modelling: association lists with insertion-order semantics ──

/-- Push a connection onto the list stored under a key: an existing entry keeps
its position and gets the connection appended, a missing key is appended at the
end with a singleton list (modelling connectionsMap.has / set / get().push). -/
def mapPush (k : String) (c : Connection) : List (String × List Connection) → List (String × List Connection)
  | [] => [(k, [c])]
  | (k2, l) :: rest => if k2 = k then (k2, l ++ [c]) :: rest else (k2, l) :: mapPush k c rest

/-- Map.get on the connection map. -/
def connLookup (k : String) : List (String × List Connection) → Option (List Connection)
  | [] => none
  | (k2, l) :: rest => if k2 = k then some l else connLookup k rest

/-- Map.has on the ring-membership map. -/
def ringHasKey (k : String) : List (String × String) → Bool
  | [] => false
  | (k2, _) :: rest => if k2 = k then true else ringHasKey k rest

/-- Conditional Map.set used by the ring-membership index: first write wins. -/
def ringSetIfAbsent (m : List (String × String)) (k v : String) : List (String × String) :=
  if ringHasKey k m then m else m ++ [(k, v)]

/-- Map.get on the ring-membership map. -/
def ringLookup (k : String) : List (String × String) → Option String
  | [] => none
  | (k2, v) :: rest => if k2 = k then some v else ringLookup k rest

/-- Per-edge step of the connectionsMap construction: one outgoing entry under
the source, then one incoming entry under the target. -/
def connInsertEdge (m : List (String × List Connection)) (e : ApiGraphEdge) : List (String × List Connection) :=
  mapPush e.target ⟨e.source, Direction.dIn, e.total_amount⟩
    (mapPush e.source ⟨e.target, Direction.dOut, e.total_amount⟩ m)

def buildConnMap (edges : List ApiGraphEdge) : List (String × List Connection) :=
  edges.foldl connInsertEdge []

def buildRingMap (rings : List ApiFraudRing) : List (String × String) :=
  rings.foldl (fun m ring =>
    ring.member_accounts.foldl (fun m2 mid => ringSetIfAbsent m2 mid ring.ring_id) m) []

/-- Lookup in the JS Map built by new Map(list.map(a =&gt; [a.account_id, a])):
with duplicate keys the last entry wins. -/
def suspiciousLookup (sa : List ApiSuspiciousAccount) (id : String) : Option ApiSuspiciousAccount :=
  sa.reverse.find? (fun a => decide (a.account_id = id))

-- ── Response mapper (src/unnamed/part_001, mappers section) ──

def mapPatternType (t : String) : String :=
  if t = "cycle" then "Circular Loop"
  else if t = "fan_in" then "Smurfing Fan-in"
  else if t = "fan_out" then "Smurfing Fan-out"
  else if t = "layering" then "Layering"
  else t

/-- Per-node Account construction of mapApiToAccounts; rng is the explicit
Math.random stream, sampled once per node for the avgHoldTime placeholder. -/
def mkAccount (rng : ℕ → ℚ) (sa : List ApiSuspiciousAccount)
    (connMap : List (String × List Connection)) (ringMap : List (String × String))
    (k : ℕ) (node : ApiGraphNode) : Account :=
  let acct := suspiciousLookup sa node.id
  let connections := (connLookup node.id connMap).getD []
  let totalIn : ℚ :=
    (connections.filter (fun c => decide (c.direction = Direction.dIn))).foldl (fun s c => s + c.amount) 0
  let totalOut : ℚ :=
    (connections.filter (fun c => decide (c.direction = Direction.dOut))).foldl (fun s c => s + c.amount) 0
  let score : ℚ := match acct with
    | some a => a.suspicion_score
    | none => node.suspicion_score
  { id := node.id
    suspicionScore := score
    inDegree := node.in_degree
    outDegree := node.out_degree
    volume := node.total_volume
    patterns := match acct with
      | some a => a.detected_patterns
      | none => []
    status := "active"
    ringId := ringLookup node.id ringMap
    behavioralDna :=
      { velocity := min 100 (jround ((node.transaction_count : ℚ) / ((max 1 (node.in_degree + node.out_degree) : ℕ) : ℚ) * 20))
        amtVariance := min 100 (jround (jsRem (node.total_volume / 10000) 100))
        fanSymmetry :=
          if node.in_degree + node.out_degree > 0 then
            jround (|(node.in_degree : ℚ) - (node.out_degree : ℚ)| / ((node.in_degree : ℚ) + (node.out_degree : ℚ)) * 100)
          else 0
        temporalCluster := min 100 (jround (score * (8 / 10)))
        hopDepth := min 100 (if node.ring_ids.length > 0 then 60 + jround (score * (4 / 10)) else jround (score * (3 / 10)))
        amtDecay := min 100 (jround (if node.total_volume > 0 then totalOut / max 1 node.total_volume * 100 else 0)) }
    networkStats :=
      { totalIn := jround totalIn
        totalOut := jround totalOut
        txCount := node.transaction_count
        avgHoldTime := (jround ((rng k * 24 + 1) * 10) : ℚ) / 10 }
    connections := connections }

/-- State-passing embedding of mapApiToAccounts: the analysis response is
threaded through every statement in source order; the Map mutations act on the
local index accumulators only, so the response component is returned as read. -/
def mapApiToAccountsRun (rng : ℕ → ℚ) (r : AnalysisResponse) : List Account × AnalysisResponse :=
  let p1 := r.graph.edges.foldl
    (fun (p : List (String × List Connection) × AnalysisResponse) e => (connInsertEdge p.1 e, p.2)) ([], r)
  let p2 := p1.2.fraud_rings.foldl
    (fun (p : List (String × String) × AnalysisResponse) ring =>
      (ring.member_accounts.foldl (fun m mid => ringSetIfAbsent m mid ring.ring_id) p.1, p.2)) ([], p1.2)
  (mapIdxFrom (mkAccount rng p2.2.suspicious_accounts p1.1 p2.1) 0 p2.2.graph.nodes, p2.2)

def mapApiToAccounts (rng : ℕ → ℚ) (r : AnalysisResponse) : List Account :=
  (mapApiToAccountsRun rng r).1

def mkRing (ring : ApiFraudRing) : FraudRing :=
  { id := ring.ring_id
    patternType := mapPatternType ring.pattern_type
    memberCount := ring.member_count
    riskScore := ring.risk_score
    accountIds := ring.member_accounts }

def mapApiToRingsRun (r : AnalysisResponse) : List FraudRing × AnalysisResponse :=
  (r.fraud_rings.map mkRing, r)

def mapApiToRings (r : AnalysisResponse) : List FraudRing :=
  (mapApiToRingsRun r).1

/-- Per-edge Transaction construction; now is the explicit projection-time
clock value used for the placeholder timestamp. -/
def mkTransaction (now : String) (i : ℕ) (e : ApiGraphEdge) : Transaction :=
  { id := "TX_" ++ padStartZeros 6 (toString i)
    source := e.source
    target := e.target
    amount := e.total_amount
    timestamp := now
    isFraud := e.suspicious }

def mapApiToTransactionsRun (now : String) (r : AnalysisResponse) : List Transaction × AnalysisResponse :=
  (mapIdxFrom (mkTransaction now) 0 r.graph.edges, r)

def mapApiToTransactions (now : String) (r : AnalysisResponse) : List Transaction :=
  (mapApiToTransactionsRun now r).1

-- ── Simulation result types (src/src/app/api.ts; fields the overlay and the
-- simulator panel consume) ──

structure HypotheticalTx where
  sender_id : String
  receiver_id : String
  amount : ℚ
  timestamp : String
deriving DecidableEq

structure SimulationCycle where
  cycle_members : List String
  cycle_length : ℕ
  cycle_risk_score : ℚ
deriving DecidableEq

structure ScoreDelta where
  account_id : String
  old_score : ℚ
  new_score : ℚ
  delta : ℚ
  delta_reason : String
deriving DecidableEq

structure SimulationResult where
  simulation_id : String
  hypothetical_tx : HypotheticalTx
  verdict : String
  verdict_reason : String
  new_cycles_created : List SimulationCycle
  score_deltas : List ScoreDelta
deriving DecidableEq

-- ── Graph model builder (src/unnamed/part_001, NetworkGraph effect) ──

/-- JS truthiness of an optional string field: undefined and the empty string
are falsy. -/
def optStrTruthy : Option String → Bool
  | none => false
  | some s => decide (s ≠ "")

inductive ElemData where
  | node (id : String) (risk : ℚ) (ringId : Option String) (label : String) : ElemData
  | edge (id : String) (source : String) (target : String) (isFraud : Bool) : ElemData
deriving DecidableEq

def ElemData.elemId : ElemData → String
  | ElemData.node i _ _ _ => i
  | ElemData.edge i _ _ _ => i

structure Element where
  data : ElemData
  classes : String
deriving DecidableEq

def accountClass (a : Account) : String :=
  if optStrTruthy a.ringId then "ring-member"
  else if a.suspicionScore > 50 then "suspicious"
  else "clean"

def accountNodeElem (a : Account) : Element :=
  ⟨ElemData.node a.id a.suspicionScore a.ringId (jsSliceLast 6 a.id), accountClass a⟩

def txEdgeElem (t : Transaction) : Element :=
  ⟨ElemData.edge t.id t.source t.target t.isFraud, if t.isFraud then "fraud-edge" else "normal-edge"⟩

def activeAccountsOf (accounts : List Account) (filterRingsOnly : Bool) : List Account :=
  if filterRingsOnly then accounts.filter (fun a => optStrTruthy a.ringId) else accounts

/-- Base element list of the NetworkGraph effect: filtered accounts become node
elements, transactions whose endpoints both survive become edge elements. -/
def buildBase (accounts : List Account) (transactions : List Transaction) (filterRingsOnly : Bool) : List Element :=
  let active := activeAccountsOf accounts filterRingsOnly
  let activeTx := transactions.filter (fun t =>
    active.any (fun a => decide (a.id = t.source)) && active.any (fun a => decide (a.id = t.target)))
  active.map accountNodeElem ++ activeTx.map txEdgeElem

-- ── Simulation overlay compositor (src/unnamed/part_001, NetworkGraph effect) ──

def affectedIds (s : SimulationResult) : List String :=
  s.score_deltas.map (fun d => d.account_id)

def cycleIds (s : SimulationResult) : List String :=
  (s.new_cycles_created.map (fun c => c.cycle_members)).flatten

/-- Overlay class suffix appended to an element: the sim-affected tag and then
the sim-cycle tag, each guarded by a truthy element id and set membership. -/
def simTags (aff cyc : List String) (id : String) : String :=
  (if id ≠ "" ∧ id ∈ aff then " sim-affected" else "")
    ++ (if id ≠ "" ∧ id ∈ cyc then " sim-cycle" else "")

def tagElem (s : SimulationResult) (e : Element) : Element :=
  ⟨e.data, e.classes ++ simTags (affectedIds s) (cycleIds s) e.data.elemId⟩

def simNodeElem (id : String) : Element :=
  ⟨ElemData.node id 0 none (jsSliceLast 6 id), "sim-node"⟩

def simEdgeElem (s : SimulationResult) : Element :=
  ⟨ElemData.edge "SIM_EDGE" s.hypothetical_tx.sender_id s.hypothetical_tx.receiver_id false, "sim-edge"⟩

/-- Hypothetical sender node, pushed only when no active account carries the id. -/
def senderNodes (activeAccounts : List Account) (s : SimulationResult) : List Element :=
  if activeAccounts.any (fun a => decide (a.id = s.hypothetical_tx.sender_id)) then []
  else [simNodeElem s.hypothetical_tx.sender_id]

/-- Hypothetical receiver node, pushed only when no active account carries the id. -/
def receiverNodes (activeAccounts : List Account) (s : SimulationResult) : List Element :=
  if activeAccounts.any (fun a => decide (a.id = s.hypothetical_tx.receiver_id)) then []
  else [simNodeElem s.hypothetical_tx.receiver_id]

/-- Simulation overlay: a null result leaves the element list untouched; a
present result pushes the missing hypothetical nodes, pushes the fixed
synthetic edge, then walks every element appending the overlay tags. -/
def overlay (activeAccounts : List Account) (elements : List Element)
    (sim : Option SimulationResult) : List Element :=
  match sim with
  | none => elements
  | some s =>
    ((elements ++ senderNodes activeAccounts s ++ receiverNodes activeAccounts s)
      ++ [simEdgeElem s]).map (tagElem s)

/-- Full element list handed to the rendering surface. -/
def networkElements (accounts : List Account) (transactions : List Transaction)
    (filterRingsOnly : Bool) (sim : Option SimulationResult) : List Element :=
  overlay (activeAccountsOf accounts filterRingsOnly)
    (buildBase accounts transactions filterRingsOnly) sim

-- ── Simulator panel validation (src/src/app/components/ScoreBar.tsx,
-- SimulatorPanel section) ──

/-- Longest digit prefix of a character list. -/
def takeDigits : List Char → List Char × List Char
  | [] => ([], [])
  | c :: cs =>
    if c.isDigit then
      let p := takeDigits cs
      (c :: p.1, p.2)
    else ([], c :: cs)

def natOfDigits (l : List Char) : ℕ :=
  l.foldl (fun n c => 10 * n + (c.toNat - 48)) 0

/-- JS parseFloat on a string, modelled for finite decimal literals with an
optional sign, fraction and exponent; none stands for NaN. -/
def jsParseFloat (s : String) : Option ℚ :=
  let cs0 := s.data.dropWhile Char.isWhitespace
  let sgn : ℚ × List Char :=
    match cs0 with
    | '-' :: r => (-1, r)
    | '+' :: r => (1, r)
    | r => (1, r)
  let ip := takeDigits sgn.2
  let fp : List Char × List Char :=
    match ip.2 with
    | '.' :: r => takeDigits r
    | r => ([], r)
  if ip.1.isEmpty ∧ fp.1.isEmpty then none
  else
    let mant : ℚ := (natOfDigits ip.1 : ℚ) + (natOfDigits fp.1 : ℚ) / ((10 : ℚ) ^ fp.1.length)
    let expv : ℤ :=
      match fp.2 with
      | 'e' :: r =>
        (match r with
          | '-' :: rr => -((natOfDigits (takeDigits rr).1 : ℤ))
          | '+' :: rr => (natOfDigits (takeDigits rr).1 : ℤ)
          | rr => (natOfDigits (takeDigits rr).1 : ℤ))
      | 'E' :: r =>
        (match r with
          | '-' :: rr => -((natOfDigits (takeDigits rr).1 : ℤ))
          | '+' :: rr => (natOfDigits (takeDigits rr).1 : ℤ)
          | rr => (natOfDigits (takeDigits rr).1 : ℤ))
      | _ => 0
    some (sgn.1 * mant * (10 : ℚ) ^ expv)

structure SimRequest where
  sender_id : String
  receiver_id : String
  amount : ℚ
  timestamp : Option String
deriving DecidableEq

/-- JS String.prototype.trim: strip leading and trailing whitespace. -/
def jsTrim (s : String) : String :=
  ⟨((s.data.dropWhile Char.isWhitespace).reverse.dropWhile Char.isWhitespace).reverse⟩

/-- Local submit gate of the simulator panel: trimmed sender and receiver must
be truthy and the parsed amount strictly positive. -/
def canSubmit (sender receiver amount : String) : Bool :=
  decide (jsTrim sender ≠ "") && decide (jsTrim receiver ≠ "")
    && (match jsParseFloat amount with
        | some q => decide (0 < q)
        | none => false)

/-- Network request issued by runSimulation, or none when the local validation
gate rejects the submission before any call. -/
def runSimulationRequest (sender receiver amount timestamp : String) : Option SimRequest :=
  if canSubmit sender receiver amount then
    some
      { sender_id := jsTrim sender
        receiver_id := jsTrim receiver
        amount := (jsParseFloat amount).getD 0
        timestamp := if timestamp = "" then none else some timestamp }
  else none

-- ── Raw responses with possibly missing structure (JSON payloads that violate
-- the typed contract) and fail-closed mapper runs ──

structure RawResponse where
  suspicious_accounts : Option (List ApiSuspiciousAccount)
  fraud_rings : Option (List ApiFraudRing)
  summary : Option ApiSummary
  graph : Option ApiGraph
deriving DecidableEq

/-- Field read that throws a TypeError when the field is missing, as JS does on
property access or iteration of undefined. -/
def requireField (name : String) : Option α → Except String α
  | some v => Except.ok v
  | none => Except.error ("TypeError: " ++ name ++ " is undefined")

/-- mapApiToAccounts on a raw payload: the fields are read in source order
(suspicious_accounts, then graph.edges, then fraud_rings, then graph.nodes) and
a missing one aborts the whole projection. -/
def mapApiToAccountsE (rng : ℕ → ℚ) (r : RawResponse) : Except String (List Account) := do
  let sa ← requireField "suspicious_accounts" r.suspicious_accounts
  let g ← requireField "graph" r.graph
  let rings ← requireField "fraud_rings" r.fraud_rings
  Except.ok (mapIdxFrom (mkAccount rng sa (buildConnMap g.edges) (buildRingMap rings)) 0 g.nodes)

/-- mapApiToRings on a raw payload: only fraud_rings is read. -/
def mapApiToRingsE (r : RawResponse) : Except String (List FraudRing) := do
  let rings ← requireField "fraud_rings" r.fraud_rings
  Except.ok (rings.map mkRing)

/-- mapApiToTransactions on a raw payload: only graph.edges is read. -/
def mapApiToTransactionsE (now : String) (r : RawResponse) : Except String (List Transaction) := do
  let g ← requireField "graph" r.graph
  Except.ok (mapIdxFrom (mkTransaction now) 0 g.edges)

/-- Result log lines of the upload screen, which read the summary fields of the
analysis result inside the try block before the app transitions to the
analyzed view; a missing summary throws there. -/
def uploadSummaryLogsE (r : RawResponse) : Except String (List String) := do
  let s ← requireField "summary" r.summary
  Except.ok
    [ "Parsed CSV: " ++ toString s.total_transactions ++ " transactions"
    , "Built graph: " ++ toString s.total_nodes ++ " nodes, " ++ toString s.total_edges ++ " edges"
    , "Cycle detection: " ++ toString s.circular_loops_found ++ " circular loops"
    , "Smurfing analysis: " ++ toString s.smurfing_patterns_found ++ " patterns"
    , "Layering detection: " ++ toString s.layering_chains_found ++ " shell chains"
    , "Flagged " ++ toString s.suspicious_accounts_flagged ++ " suspicious accounts" ]

-- ── Derived characterizations and claim-side helpers ──

/-- Defaulted lookup on the connection map, as connectionsMap.get(id) with the
empty-array fallback. -/
def connLookupD (m : List (String × List Connection)) (k : String) : List Connection :=
  (connLookup k m).getD []

/-- Flat per-node description of the connection lists the edge walk builds: in
edge order, every edge with a matching source contributes one outgoing entry
and every edge with a matching target one incoming entry. -/
def connectionsFor (edges : List ApiGraphEdge) (id : String) : List Connection :=
  match edges with
  | [] => []
  | e :: es =>
    ((if e.source = id then [⟨e.target, Direction.dOut, e.total_amount⟩] else [])
      ++ (if e.target = id then [⟨e.source, Direction.dIn, e.total_amount⟩] else []))
      ++ connectionsFor es id

/-- Spec-side characterization for the ring-uniqueness claim: the id of the
first ring, in input order, whose member list contains the account id. -/
def firstRingId (rings : List ApiFraudRing) (id : String) : Option String :=
  (rings.find? (fun ring => decide (id ∈ ring.member_accounts))).map (fun ring => ring.ring_id)

/-- Left-biased option choice, as the first-write-wins map semantics. -/
def optOr (a b : Option String) : Option String :=
  match a with
  | some v => some v
  | none => b

/-- Node-element ids of an element list, in order. -/
def elemNodeIds (els : List Element) : List String :=
  els.filterMap (fun el =>
    match el.data with
    | ElemData.node i _ _ _ => some i
    | ElemData.edge _ _ _ _ => none)

/-- Recognizer of the synthetic overlay edge element. -/
def isSimEdgeElem (el : Element) : Bool :=
  match el.data with
  | ElemData.edge i _ _ _ => decide (i = "SIM_EDGE")
  | ElemData.node _ _ _ _ => false

/-- Account with the nondeterministic avgHoldTime placeholder blanked out. -/
def scrubAccount (a : Account) : Account :=
  { a with networkStats := { a.networkStats with avgHoldTime := 0 } }

/-- Transaction with the projection-time timestamp placeholder blanked out. -/
def scrubTransaction (t : Transaction) : Transaction :=
  { t with timestamp := "" }

-- ── Concrete sample data used by the witness theorems ──

def rng0 : ℕ → ℚ := fun _ => 0

def sampleSummary : ApiSummary :=
  ⟨2, 1, 1, 1, 1, 2, 1, 1, 0, 0, 1, 1, 0, 100⟩

def sampleNodeA : ApiGraphNode := ⟨"A", true, 80, 0, 1, ["R1"], 1000, 1⟩

def sampleNodeB : ApiGraphNode := ⟨"B", false, 10, 1, 0, [], 1000, 1⟩

def sampleEdgeAB : ApiGraphEdge := ⟨"A", "B", true, 100, 1⟩

def sampleRing : ApiFraudRing := ⟨"R1", "cycle", ["A"], 1, 90, 100, [("A", "B")], none⟩

def sampleSusp : ApiSuspiciousAccount := ⟨"A", 80, ["cycle_member"], "R1", 0, 1, 1000, 1, 1, ["cycle"], 1⟩

def sampleResponse : AnalysisResponse :=
  ⟨[sampleSusp], [sampleRing], sampleSummary, ⟨[sampleNodeA, sampleNodeB], [sampleEdgeAB]⟩⟩

def dummyAccount : Account :=
  { id := ""
    suspicionScore := 0
    inDegree := 0
    outDegree := 0
    volume := 0
    patterns := []
    status := "active"
    ringId := none
    behavioralDna := ⟨0, 0, 0, 0, 0, 0⟩
    networkStats := ⟨0, 0, 0, 0⟩
    connections := [] }

def sampleAcct : Account := (mapApiToAccounts rng0 sampleResponse).headD dummyAccount

def sampleNow : String := "2025-01-01T00:00:00.000Z"

def sampleTx : Transaction := ⟨"TX_000000", "A", "B", 100, sampleNow, true⟩

def sampleSim : SimulationResult :=
  ⟨"SIM_001", ⟨"A", "C", 500, sampleNow⟩, "DANGEROUS", "creates cycle",
    [⟨["A", "C"], 2, 90⟩], [⟨"A", 80, 95, 15, "cycle participation"⟩]⟩

def rawNoSummary : RawResponse :=
  ⟨some [sampleSusp], some [sampleRing], none, some ⟨[sampleNodeA, sampleNodeB], [sampleEdgeAB]⟩⟩

def rawNoGraph : RawResponse :=
  ⟨some [sampleSusp], some [sampleRing], some sampleSummary, none⟩

-- ── Generic helper lemmas ──

theorem mapIdxFrom_map (g : β → γ) (f : ℕ → α → β) :
    ∀ (n : ℕ) (l : List α), (mapIdxFrom f n l).map g = mapIdxFrom (fun i a => g (f i a)) n l := by
  intro n l
  induction l generalizing n with
  | nil => rfl
  | cons a as ih => simp [mapIdxFrom, ih]

theorem mem_mapIdxFrom {f : ℕ → α → β} {b : β} :
    ∀ {n : ℕ} {l : List α}, b ∈ mapIdxFrom f n l → ∃ i a, a ∈ l ∧ b = f i a := by
  intro n l
  induction l generalizing n with
  | nil => intro h; cases h
  | cons a as ih =>
    intro h
    rcases List.mem_cons.mp h with h | h
    · exact ⟨n, a, List.mem_cons_self a as, h⟩
    · obtain ⟨i, a2, ha2, hb⟩ := ih h
      exact ⟨i, a2, List.mem_cons_of_mem a ha2, hb⟩

theorem mapIdxFrom_mem {f : ℕ → α → β} {a : α} :
    ∀ {n : ℕ} {l : List α}, a ∈ l → ∃ i, f i a ∈ mapIdxFrom f n l := by
  intro n l
  induction l generalizing n with
  | nil => intro h; cases h
  | cons b bs ih =>
    intro h
    rcases List.mem_cons.mp h with h | h
    · exact ⟨n, by rw [h]; exact List.mem_cons_self _ _⟩
    · obtain ⟨i, hi⟩ := ih (n := n + 1) h
      exact ⟨i, List.mem_cons_of_mem _ hi⟩

theorem foldl_pair (f : α → β → α) (s : σ) :
    ∀ (l : List β) (a : α), l.foldl (fun p b => (f p.1 b, p.2)) (a, s) = (l.foldl f a, s) := by
  intro l
  induction l with
  | nil => intro a; rfl
  | cons b bs ih => intro a; simpa using ih (f a b)

theorem mapApiToAccountsRun_eq (rng : ℕ → ℚ) (r : AnalysisResponse) :
    mapApiToAccountsRun rng r =
      (mapIdxFrom (mkAccount rng r.suspicious_accounts (buildConnMap r.graph.edges)
        (buildRingMap r.fraud_rings)) 0 r.graph.nodes, r) := by
  unfold mapApiToAccountsRun
  rw [foldl_pair connInsertEdge r r.graph.edges []]
  dsimp only
  rw [foldl_pair (fun (m : List (String × String)) ring =>
    List.foldl (fun m2 mid => ringSetIfAbsent m2 mid ring.ring_id) m ring.member_accounts)
    r r.fraud_rings []]
  rfl

theorem mapApiToAccounts_eq (rng : ℕ → ℚ) (r : AnalysisResponse) :
    mapApiToAccounts rng r =
      mapIdxFrom (mkAccount rng r.suspicious_accounts (buildConnMap r.graph.edges)
        (buildRingMap r.fraud_rings)) 0 r.graph.nodes := by
  rw [mapApiToAccounts, mapApiToAccountsRun_eq]

-- ── Connection map lemmas ──

theorem connLookupD_mapPush (k : String) (c : Connection) :
    ∀ (m : List (String × List Connection)) (k2 : String),
      connLookupD (mapPush k c m) k2 = connLookupD m k2 ++ (if k = k2 then [c] else []) := by
  intro m
  induction m with
  | nil =>
    intro k2
    by_cases h : k = k2 <;> simp [mapPush, connLookupD, connLookup, h]
  | cons p rest ih =>
    intro k2
    obtain ⟨k3, l⟩ := p
    by_cases h1 : k3 = k
    · by_cases h2 : k = k2
      · have h3 : k3 = k2 := h1.trans h2
        simp [mapPush, connLookupD, connLookup, h1, h2, h3]
      · have h3 : ¬(k3 = k2) := fun h => h2 (h1.symm.trans h)
        simp [mapPush, connLookupD, connLookup, h1, h2, h3]
    · by_cases h2 : k3 = k2
      · have h3 : ¬(k = k2) := fun h => h1 (h2.trans h.symm)
        have h4 : ¬(k2 = k) := fun h => h3 h.symm
        simp [mapPush, connLookupD, connLookup, h1, h2, h3, h4]
      · simp only [mapPush, if_neg h1, connLookupD, connLookup, if_neg h2]
        exact ih k2

theorem connLookupD_connInsertEdge (m : List (String × List Connection)) (e : ApiGraphEdge) (id : String) :
    connLookupD (connInsertEdge m e) id =
      connLookupD m id
        ++ ((if e.source = id then [⟨e.target, Direction.dOut, e.total_amount⟩] else [])
          ++ (if e.target = id then [⟨e.source, Direction.dIn, e.total_amount⟩] else [])) := by
  rw [connInsertEdge, connLookupD_mapPush, connLookupD_mapPush, List.append_assoc]

theorem connLookupD_foldl (edges : List ApiGraphEdge) :
    ∀ (m : List (String × List Connection)) (id : String),
      connLookupD (edges.foldl connInsertEdge m) id = connLookupD m id ++ connectionsFor edges id := by
  induction edges with
  | nil => intro m id; simp [connectionsFor]
  | cons e es ih =>
    intro m id
    rw [List.foldl_cons, ih, connLookupD_connInsertEdge, connectionsFor, List.append_assoc]

theorem connLookupD_buildConnMap (edges : List ApiGraphEdge) (id : String) :
    connLookupD (buildConnMap edges) id = connectionsFor edges id := by
  rw [buildConnMap, connLookupD_foldl]
  rfl

theorem mkAccount_id (rng : ℕ → ℚ) (sa : List ApiSuspiciousAccount)
    (connMap : List (String × List Connection)) (ringMap : List (String × String))
    (k : ℕ) (node : ApiGraphNode) :
    (mkAccount rng sa connMap ringMap k node).id = node.id := rfl

theorem mkAccount_connections (rng : ℕ → ℚ) (sa : List ApiSuspiciousAccount)
    (connMap : List (String × List Connection)) (ringMap : List (String × String))
    (k : ℕ) (node : ApiGraphNode) :
    (mkAccount rng sa connMap ringMap k node).connections = connLookupD connMap node.id := rfl

theorem mkAccount_ringId (rng : ℕ → ℚ) (sa : List ApiSuspiciousAccount)
    (connMap : List (String × List Connection)) (ringMap : List (String × String))
    (k : ℕ) (node : ApiGraphNode) :
    (mkAccount rng sa connMap ringMap k node).ringId = ringLookup node.id ringMap := rfl

-- ── Counting lemmas for the connection lists ──

theorem countP_if_single (p : α → Bool) (b : Prop) [Decidable b] (x : α) :
    (if b then [x] else []).countP p = if b then (if p x = true then 1 else 0) else 0 := by
  split_ifs with hb hp
  · simp [List.countP_cons, hp]
  · simp [List.countP_cons, hp]
  · rfl

theorem countP_connectionsFor_out (edges : List ApiGraphEdge) (u v : String) (a : ℚ) :
    (connectionsFor edges u).countP (fun c => decide (c = ⟨v, Direction.dOut, a⟩))
      = edges.countP (fun e => decide (e.source = u ∧ e.target = v ∧ e.total_amount = a)) := by
  induction edges with
  | nil => rfl
  | cons e es ih =>
    rw [connectionsFor, List.countP_append, List.countP_append, ih, List.countP_cons,
      countP_if_single, countP_if_single]
    by_cases h1 : e.source = u <;> by_cases h2 : e.target = v <;> by_cases h3 : e.total_amount = a <;>
      simp [h1, h2, h3, Connection.mk.injEq] <;> omega

theorem countP_connectionsFor_in (edges : List ApiGraphEdge) (u v : String) (a : ℚ) :
    (connectionsFor edges u).countP (fun c => decide (c = ⟨v, Direction.dIn, a⟩))
      = edges.countP (fun e => decide (e.source = v ∧ e.target = u ∧ e.total_amount = a)) := by
  induction edges with
  | nil => rfl
  | cons e es ih =>
    rw [connectionsFor, List.countP_append, List.countP_append, ih, List.countP_cons,
      countP_if_single, countP_if_single]
    by_cases h1 : e.target = u <;> by_cases h2 : e.source = v <;> by_cases h3 : e.total_amount = a <;>
      simp [h1, h2, h3, Connection.mk.injEq] <;> omega

theorem mem_connectionsFor {edges : List ApiGraphEdge} {u : String} {c : Connection} :
    c ∈ connectionsFor edges u →
      (c.direction = Direction.dOut
        ∧ ∃ e ∈ edges, e.source = u ∧ e.target = c.targetId ∧ e.total_amount = c.amount)
      ∨ (c.direction = Direction.dIn
        ∧ ∃ e ∈ edges, e.target = u ∧ e.source = c.targetId ∧ e.total_amount = c.amount) := by
  induction edges with
  | nil => intro h; cases h
  | cons e es ih =>
    intro h
    rw [connectionsFor, List.append_assoc] at h
    rcases List.mem_append.mp h with h | h
    · by_cases h1 : e.source = u
      · rw [if_pos h1] at h
        rcases List.mem_singleton.mp h with rfl
        exact Or.inl ⟨rfl, e, List.mem_cons_self e es, h1, rfl, rfl⟩
      · rw [if_neg h1] at h
        cases h
    · rcases List.mem_append.mp h with h | h
      · by_cases h2 : e.target = u
        · rw [if_pos h2] at h
          rcases List.mem_singleton.mp h with rfl
          exact Or.inr ⟨rfl, e, List.mem_cons_self e es, h2, rfl, rfl⟩
        · rw [if_neg h2] at h
          cases h
      · rcases ih h with ⟨hd, e2, he2, h3⟩ | ⟨hd, e2, he2, h3⟩
        · exact Or.inl ⟨hd, e2, List.mem_cons_of_mem e he2, h3⟩
        · exact Or.inr ⟨hd, e2, List.mem_cons_of_mem e he2, h3⟩

theorem countP_key_unique {edges : List ApiGraphEdge}
    (h : (edges.map (fun e => (e.source, e.target))).Nodup) {e : ApiGraphEdge} (he : e ∈ edges) :
    edges.countP (fun x =>
      decide (x.source = e.source ∧ x.target = e.target ∧ x.total_amount = e.total_amount)) = 1 := by
  induction edges with
  | nil => cases he
  | cons f fs ih =>
    rw [List.map_cons, List.nodup_cons] at h
    rw [List.countP_cons]
    rcases List.mem_cons.mp he with rfl | hmem
    · have hz : fs.countP (fun x =>
          decide (x.source = e.source ∧ x.target = e.target ∧ x.total_amount = e.total_amount)) = 0 := by
        rw [List.countP_eq_zero]
        intro x hx hmatch
        rw [decide_eq_true_eq] at hmatch
        exact h.1 (List.mem_map.mpr ⟨x, hx, by rw [hmatch.1, hmatch.2.1]⟩)
      rw [hz]
      simp
    · have hne : ¬(f.source = e.source ∧ f.target = e.target ∧ f.total_amount = e.total_amount) := by
        intro hc
        exact h.1 (List.mem_map.mpr ⟨e, hmem, by rw [hc.1, hc.2.1]⟩)
      rw [ih h.2 hmem, if_neg (by simpa using hne)]

-- ── Ring membership map lemmas ──

theorem optOr_assoc (a b c : Option String) : optOr (optOr a b) c = optOr a (optOr b c) := by
  cases a <;> rfl

theorem ringHasKey_eq_isSome (k : String) :
    ∀ m : List (String × String), ringHasKey k m = (ringLookup k m).isSome := by
  intro m
  induction m with
  | nil => rfl
  | cons p rest ih =>
    obtain ⟨k2, v⟩ := p
    by_cases h : k2 = k <;> simp [ringHasKey, ringLookup, h, ih]

theorem ringLookup_append_single (k k2 v : String) :
    ∀ m : List (String × String),
      ringLookup k2 (m ++ [(k, v)]) = optOr (ringLookup k2 m) (if k = k2 then some v else none) := by
  intro m
  induction m with
  | nil =>
    by_cases h : k = k2
    · simp [ringLookup, optOr, h]
    · have h2 : ¬(k = k2) := h
      simp [ringLookup, optOr, h, h2]
  | cons p rest ih =>
    obtain ⟨k3, w⟩ := p
    by_cases h : k3 = k2 <;> simp [ringLookup, optOr, h, ih]

theorem ringLookup_setIfAbsent (m : List (String × String)) (k v k2 : String) :
    ringLookup k2 (ringSetIfAbsent m k v)
      = optOr (ringLookup k2 m) (if k = k2 then some v else none) := by
  rw [ringSetIfAbsent]
  by_cases hk : ringHasKey k m = true
  · rw [if_pos hk]
    by_cases h : k = k2
    · subst h
      rw [ringHasKey_eq_isSome] at hk
      obtain ⟨w, hw⟩ := Option.isSome_iff_exists.mp hk
      rw [hw]
      rfl
    · rw [if_neg h]
      cases hl : ringLookup k2 m <;> rfl
  · rw [if_neg hk, ringLookup_append_single]

theorem ringLookup_memberFold (rid : String) :
    ∀ (members : List String) (m : List (String × String)) (k2 : String),
      ringLookup k2 (members.foldl (fun m2 mid => ringSetIfAbsent m2 mid rid) m)
        = optOr (ringLookup k2 m) (if k2 ∈ members then some rid else none) := by
  intro members
  induction members with
  | nil =>
    intro m k2
    simp only [List.foldl_nil, List.not_mem_nil, if_neg]
    cases ringLookup k2 m <;> rfl
  | cons mid ms ih =>
    intro m k2
    rw [List.foldl_cons, ih, ringLookup_setIfAbsent, optOr_assoc]
    by_cases h1 : mid = k2
    · subst h1
      simp [List.mem_cons, optOr]
    · by_cases h2 : k2 ∈ ms
      · have h1b : ¬(k2 = mid) := fun hh => h1 hh.symm
        simp [List.mem_cons, h1, h1b, h2, optOr]
      · have h3 : ¬(k2 ∈ mid :: ms) := by
          intro h
          rcases List.mem_cons.mp h with h | h
          · exact h1 h.symm
          · exact h2 h
        simp [h1, h2, h3, optOr]

theorem firstRingId_cons (ring : ApiFraudRing) (rs : List ApiFraudRing) (id : String) :
    firstRingId (ring :: rs) id
      = if id ∈ ring.member_accounts then some ring.ring_id else firstRingId rs id := by
  rw [firstRingId, List.find?_cons]
  by_cases h : id ∈ ring.member_accounts
  · simp [h, firstRingId]
  · simp [h, firstRingId]

theorem ringLookup_ringFold :
    ∀ (rings : List ApiFraudRing) (m : List (String × String)) (k2 : String),
      ringLookup k2 (rings.foldl (fun m2 ring =>
          ring.member_accounts.foldl (fun m3 mid => ringSetIfAbsent m3 mid ring.ring_id) m2) m)
        = optOr (ringLookup k2 m) (firstRingId rings k2) := by
  intro rings
  induction rings with
  | nil =>
    intro m k2
    simp only [List.foldl_nil, firstRingId, List.find?_nil, Option.map_none]
    cases ringLookup k2 m <;> rfl
  | cons ring rs ih =>
    intro m k2
    rw [List.foldl_cons, ih, ringLookup_memberFold, optOr_assoc, firstRingId_cons]
    by_cases h : k2 ∈ ring.member_accounts <;> simp [h, optOr]

theorem ringLookup_buildRingMap (rings : List ApiFraudRing) (k2 : String) :
    ringLookup k2 (buildRingMap rings) = firstRingId rings k2 := by
  rw [buildRingMap, ringLookup_ringFold]
  cases firstRingId rings k2 <;> rfl

-- ── Arithmetic bound lemmas for the derived metrics ──

theorem jround_nonneg {q : ℚ} (h : 0 ≤ q) : 0 ≤ jround q := by
  rw [jround]
  exact Int.le_floor.mpr (by push_cast; linarith)

theorem jround_le_100 {q : ℚ} (h : q ≤ 100) : jround q ≤ 100 := by
  rw [jround]
  have h1 : ⌊q + 1 / 2⌋ ≤ ⌊(100 : ℚ) + 1 / 2⌋ := Int.floor_le_floor (by linarith)
  have h2 : ⌊(100 : ℚ) + 1 / 2⌋ = 100 := by
    rw [Int.floor_eq_iff]
    norm_num
  omega

theorem min100_le (x : ℤ) : min 100 x ≤ 100 := min_le_left _ _

theorem min100_nonneg {x : ℤ} (h : 0 ≤ x) : 0 ≤ min 100 x := le_min (by norm_num) h

theorem jsRem_nonneg {a b : ℚ} (ha : 0 ≤ a) (hb : 0 < b) : 0 ≤ jsRem a b := by
  have hq : 0 ≤ a / b := div_nonneg ha hb.le
  rw [jsRem, ratTrunc, if_pos hq]
  have h1 : (⌊a / b⌋ : ℚ) ≤ a / b := Int.floor_le _
  have h2 : b * (⌊a / b⌋ : ℚ) ≤ b * (a / b) := mul_le_mul_of_nonneg_left h1 hb.le
  have h3 : b * (a / b) = a := by field_simp
  linarith

theorem foldl_add_nonneg (l : List Connection) (h : ∀ c ∈ l, 0 ≤ c.amount) :
    ∀ (init : ℚ), 0 ≤ init → 0 ≤ l.foldl (fun s c => s + c.amount) init := by
  induction l with
  | nil => intro init h0; exact h0
  | cons c cs ih =>
    intro init h0
    rw [List.foldl_cons]
    have hc := h c (List.mem_cons_self c cs)
    exact ih (fun d hd => h d (List.mem_cons_of_mem c hd)) (init + c.amount) (by linarith)

theorem suspiciousLookup_mem {sa : List ApiSuspiciousAccount} {id : String} {a : ApiSuspiciousAccount}
    (h : suspiciousLookup sa id = some a) : a ∈ sa := by
  rw [suspiciousLookup] at h
  exact List.mem_reverse.mp (List.mem_of_find?_eq_some h)

theorem mkAccount_bounds (rng : ℕ → ℚ) (sa : List ApiSuspiciousAccount)
    (connMap : List (String × List Connection)) (ringMap : List (String × String))
    (k : ℕ) (node : ApiGraphNode)
    (hsa : ∀ a ∈ sa, 0 ≤ a.suspicion_score ∧ a.suspicion_score ≤ 100)
    (hnode : 0 ≤ node.suspicion_score ∧ node.suspicion_score ≤ 100)
    (hvol : 0 ≤ node.total_volume)
    (hconn : ∀ c ∈ (connLookup node.id connMap).getD [], 0 ≤ c.amount) :
    (0 ≤ (mkAccount rng sa connMap ringMap k node).suspicionScore
      ∧ (mkAccount rng sa connMap ringMap k node).suspicionScore ≤ 100)
    ∧ (0 ≤ (mkAccount rng sa connMap ringMap k node).behavioralDna.velocity
      ∧ (mkAccount rng sa connMap ringMap k node).behavioralDna.velocity ≤ 100)
    ∧ (0 ≤ (mkAccount rng sa connMap ringMap k node).behavioralDna.amtVariance
      ∧ (mkAccount rng sa connMap ringMap k node).behavioralDna.amtVariance ≤ 100)
    ∧ (0 ≤ (mkAccount rng sa connMap ringMap k node).behavioralDna.fanSymmetry
      ∧ (mkAccount rng sa connMap ringMap k node).behavioralDna.fanSymmetry ≤ 100)
    ∧ (0 ≤ (mkAccount rng sa connMap ringMap k node).behavioralDna.temporalCluster
      ∧ (mkAccount rng sa connMap ringMap k node).behavioralDna.temporalCluster ≤ 100)
    ∧ (0 ≤ (mkAccount rng sa connMap ringMap k node).behavioralDna.hopDepth
      ∧ (mkAccount rng sa connMap ringMap k node).behavioralDna.hopDepth ≤ 100)
    ∧ (0 ≤ (mkAccount rng sa connMap ringMap k node).behavioralDna.amtDecay
      ∧ (mkAccount rng sa connMap ringMap k node).behavioralDna.amtDecay ≤ 100) := by
  have hscore : 0 ≤ (mkAccount rng sa connMap ringMap k node).suspicionScore
      ∧ (mkAccount rng sa connMap ringMap k node).suspicionScore ≤ 100 := by
    cases hl : suspiciousLookup sa node.id with
    | some a =>
      have he : (mkAccount rng sa connMap ringMap k node).suspicionScore = a.suspicion_score := by
        simp [mkAccount, hl]
      rw [he]
      exact hsa a (suspiciousLookup_mem hl)
    | none =>
      have he : (mkAccount rng sa connMap ringMap k node).suspicionScore = node.suspicion_score := by
        simp [mkAccount, hl]
      rw [he]
      exact hnode
  refine ⟨hscore, ?_, ?_, ?_, ?_, ?_, ?_⟩
  · have he : (mkAccount rng sa connMap ringMap k node).behavioralDna.velocity
        = min 100 (jround ((node.transaction_count : ℚ)
          / ((max 1 (node.in_degree + node.out_degree) : ℕ) : ℚ) * 20)) := rfl
    rw [he]
    exact ⟨min100_nonneg (jround_nonneg (by positivity)), min100_le _⟩
  · have he : (mkAccount rng sa connMap ringMap k node).behavioralDna.amtVariance
        = min 100 (jround (jsRem (node.total_volume / 10000) 100)) := rfl
    rw [he]
    refine ⟨min100_nonneg (jround_nonneg (jsRem_nonneg ?_ (by norm_num))), min100_le _⟩
    exact div_nonneg hvol (by norm_num)
  · have he : (mkAccount rng sa connMap ringMap k node).behavioralDna.fanSymmetry
        = (if node.in_degree + node.out_degree > 0 then
            jround (|(node.in_degree : ℚ) - (node.out_degree : ℚ)|
              / ((node.in_degree : ℚ) + (node.out_degree : ℚ)) * 100)
          else 0) := rfl
    rw [he]
    split_ifs with hdeg
    · have hi0 : (0 : ℚ) ≤ (node.in_degree : ℚ) := Nat.cast_nonneg _
      have ho0 : (0 : ℚ) ≤ (node.out_degree : ℚ) := Nat.cast_nonneg _
      have hio : (0 : ℚ) < (node.in_degree : ℚ) + (node.out_degree : ℚ) := by exact_mod_cast hdeg
      have habs : |(node.in_degree : ℚ) - (node.out_degree : ℚ)|
          ≤ (node.in_degree : ℚ) + (node.out_degree : ℚ) := by
        rw [abs_sub_le_iff]
        constructor <;> linarith
      constructor
      · exact jround_nonneg (by positivity)
      · apply jround_le_100
        have hr : |(node.in_degree : ℚ) - (node.out_degree : ℚ)|
            / ((node.in_degree : ℚ) + (node.out_degree : ℚ)) ≤ 1 := (div_le_one hio).mpr habs
        have := mul_le_mul_of_nonneg_right hr (by norm_num : (0 : ℚ) ≤ 100)
        linarith
    · norm_num
  · have he : (mkAccount rng sa connMap ringMap k node).behavioralDna.temporalCluster
        = min 100 (jround ((mkAccount rng sa connMap ringMap k node).suspicionScore * (8 / 10))) := rfl
    rw [he]
    exact ⟨min100_nonneg (jround_nonneg (mul_nonneg hscore.1 (by norm_num))), min100_le _⟩
  · have he : (mkAccount rng sa connMap ringMap k node).behavioralDna.hopDepth
        = min 100 (if node.ring_ids.length > 0 then
            60 + jround ((mkAccount rng sa connMap ringMap k node).suspicionScore * (4 / 10))
          else jround ((mkAccount rng sa connMap ringMap k node).suspicionScore * (3 / 10))) := rfl
    rw [he]
    refine ⟨min100_nonneg ?_, min100_le _⟩
    split_ifs with hr
    · have := jround_nonneg (mul_nonneg hscore.1 (by norm_num : (0 : ℚ) ≤ 4 / 10))
      omega
    · exact jround_nonneg (mul_nonneg hscore.1 (by norm_num))
  · have htout : 0 ≤ (((connLookup node.id connMap).getD []).filter
        (fun c => decide (c.direction = Direction.dOut))).foldl (fun s c => s + c.amount) 0 :=
      foldl_add_nonneg _ (fun c hc => hconn c (List.mem_of_mem_filter hc)) 0 le_rfl
    have he : (mkAccount rng sa connMap ringMap k node).behavioralDna.amtDecay
        = min 100 (jround (if node.total_volume > 0 then
            (((connLookup node.id connMap).getD []).filter
              (fun c => decide (c.direction = Direction.dOut))).foldl (fun s c => s + c.amount) 0
              / max 1 node.total_volume * 100
          else 0)) := rfl
    rw [he]
    refine ⟨min100_nonneg (jround_nonneg ?_), min100_le _⟩
    split_ifs with hv
    · have hm : (0 : ℚ) < max 1 node.total_volume := lt_of_lt_of_le one_pos (le_max_left 1 _)
      exact mul_nonneg (div_nonneg htout hm.le) (by norm_num)
    · exact le_rfl

theorem mapApiToTransactions_eq (now : String) (r : AnalysisResponse) :
    mapApiToTransactions now r = mapIdxFrom (mkTransaction now) 0 r.graph.edges := rfl

theorem mkTransaction_source (now : String) (i : ℕ) (e : ApiGraphEdge) :
    (mkTransaction now i e).source = e.source := rfl

theorem mkTransaction_target (now : String) (i : ℕ) (e : ApiGraphEdge) :
    (mkTransaction now i e).target = e.target := rfl

theorem mkTransaction_amount (now : String) (i : ℕ) (e : ApiGraphEdge) :
    (mkTransaction now i e).amount = e.total_amount := rfl

theorem accounts_shape (rng : ℕ → ℚ) (r : AnalysisResponse) :
    ∀ acct ∈ mapApiToAccounts rng r, ∃ node ∈ r.graph.nodes,
      acct.id = node.id ∧ acct.connections = connectionsFor r.graph.edges node.id := by
  intro acct hacct
  rw [mapApiToAccounts_eq] at hacct
  obtain ⟨i, node, hmem, rfl⟩ := mem_mapIdxFrom hacct
  refine ⟨node, hmem, rfl, ?_⟩
  rw [mkAccount_connections]
  exact connLookupD_buildConnMap r.graph.edges node.id

theorem accounts_exist (rng : ℕ → ℚ) (r : AnalysisResponse) :
    ∀ s ∈ r.graph.nodes.map (fun n => n.id), ∃ acct ∈ mapApiToAccounts rng r, acct.id = s := by
  intro s hs
  obtain ⟨node, hmem, rfl⟩ := List.mem_map.mp hs
  rw [mapApiToAccounts_eq]
  obtain ⟨i, hi⟩ := mapIdxFrom_mem
    (f := mkAccount rng r.suspicious_accounts (buildConnMap r.graph.edges) (buildRingMap r.fraud_rings))
    (n := 0) hmem
  exact ⟨_, hi, rfl⟩

/-- C1: for a response that satisfies the engine contract (edges aggregated by
sender and receiver pair, so the source-target key list has no duplicates, and
every edge endpoint listed among the graph nodes), the projection is
connection-symmetric: for every projected Transaction (s, t, amount) an Account
with id s exists and every such Account has exactly one outgoing connection
(t, amount), an Account with id t exists and every such Account has exactly one
incoming connection (s, amount); conversely every connection entry of every
projected Account is matched by exactly one edge of the response. -/
theorem mapper_connection_symmetric (r : AnalysisResponse) (rng : ℕ → ℚ) (now : String)
    (hagg : (r.graph.edges.map (fun e => (e.source, e.target))).Nodup)
    (hclosed : ∀ e ∈ r.graph.edges,
      e.source ∈ r.graph.nodes.map (fun n => n.id) ∧ e.target ∈ r.graph.nodes.map (fun n => n.id)) :
    (∀ tx ∈ mapApiToTransactions now r,
      ((∃ acct ∈ mapApiToAccounts rng r, acct.id = tx.source)
        ∧ ∀ acct ∈ mapApiToAccounts rng r, acct.id = tx.source →
            acct.connections.countP
              (fun c => decide (c = ⟨tx.target, Direction.dOut, tx.amount⟩)) = 1)
      ∧ ((∃ acct ∈ mapApiToAccounts rng r, acct.id = tx.target)
        ∧ ∀ acct ∈ mapApiToAccounts rng r, acct.id = tx.target →
            acct.connections.countP
              (fun c => decide (c = ⟨tx.source, Direction.dIn, tx.amount⟩)) = 1))
    ∧ (∀ acct ∈ mapApiToAccounts rng r, ∀ c ∈ acct.connections,
        (c.direction = Direction.dOut →
          r.graph.edges.countP (fun x =>
            decide (x.source = acct.id ∧ x.target = c.targetId ∧ x.total_amount = c.amount)) = 1)
        ∧ (c.direction = Direction.dIn →
          r.graph.edges.countP (fun x =>
            decide (x.source = c.targetId ∧ x.target = acct.id ∧ x.total_amount = c.amount)) = 1)) := by
  constructor
  · intro tx htx
    rw [mapApiToTransactions_eq] at htx
    obtain ⟨i, e, hemem, rfl⟩ := mem_mapIdxFrom htx
    simp only [mkTransaction_source, mkTransaction_target, mkTransaction_amount]
    have hsrc := (hclosed e hemem).1
    have htgt := (hclosed e hemem).2
    refine ⟨⟨accounts_exist rng r e.source hsrc, ?_⟩, accounts_exist rng r e.target htgt, ?_⟩
    · intro acct hacct hid
      obtain ⟨node, hnmem, hid2, hconns⟩ := accounts_shape rng r acct hacct
      rw [hconns, countP_connectionsFor_out]
      have hne : node.id = e.source := by rw [← hid2, hid]
      rw [hne]
      exact countP_key_unique hagg hemem
    · intro acct hacct hid
      obtain ⟨node, hnmem, hid2, hconns⟩ := accounts_shape rng r acct hacct
      rw [hconns, countP_connectionsFor_in]
      have hne : node.id = e.target := by rw [← hid2, hid]
      rw [hne]
      exact countP_key_unique hagg hemem
  · intro acct hacct c hc
    obtain ⟨node, hnmem, hid2, hconns⟩ := accounts_shape rng r acct hacct
    rw [hconns] at hc
    rcases mem_connectionsFor hc with ⟨hdir, e, hemem, hsrc, htg, ham⟩ | ⟨hdir, e, hemem, htg, hsrc, ham⟩
    · constructor
      · intro _
        rw [hid2, ← hsrc, ← htg, ← ham]
        exact countP_key_unique hagg hemem
      · intro hdir2
        rw [hdir] at hdir2
        exact Direction.noConfusion hdir2
    · constructor
      · intro hdir2
        rw [hdir] at hdir2
        exact Direction.noConfusion hdir2
      · intro _
        rw [hid2, ← htg, ← hsrc, ← ham]
        exact countP_key_unique hagg hemem

theorem headD_mem (l : List α) (d : α) (h : l ≠ []) : l.headD d ∈ l := by
  cases l with
  | nil => exact absurd rfl h
  | cons a as => exact List.mem_cons_self a as

theorem sampleAcct_mem : sampleAcct ∈ mapApiToAccounts rng0 sampleResponse :=
  headD_mem _ _ (by decide)

theorem mapper_connection_symmetric_witness :
    sampleAcct.connections.countP
      (fun c => decide (c = ⟨"B", Direction.dOut, (100 : ℚ)⟩)) = 1 := by
  have h := mapper_connection_symmetric sampleResponse rng0 sampleNow (by decide) (by decide)
  exact (h.1 sampleTx (by decide)).1.2 sampleAcct sampleAcct_mem (by decide)

/-- C4: the ringId of every projected Account equals the ring_id of the first
ring, in the order of the fraud_rings list of the response, whose
member_accounts contains the account id, and is absent when no ring lists the
account. -/
theorem ring_assignment_first_seen (r : AnalysisResponse) (rng : ℕ → ℚ) :
    ∀ acct ∈ mapApiToAccounts rng r, acct.ringId = firstRingId r.fraud_rings acct.id := by
  intro acct hacct
  rw [mapApiToAccounts_eq] at hacct
  obtain ⟨i, node, hnodemem, rfl⟩ := mem_mapIdxFrom hacct
  rw [mkAccount_ringId, mkAccount_id, ringLookup_buildRingMap]

theorem ring_assignment_first_seen_witness :
    sampleAcct.ringId = firstRingId sampleResponse.fraud_rings sampleAcct.id :=
  ring_assignment_first_seen sampleResponse rng0 sampleAcct sampleAcct_mem

/-- C5: for every account produced by mapApiToAccounts from a response that
satisfies the engine contract (suspicion scores in [0,100], nonnegative node
volumes and edge amounts), suspicionScore lies in [0,100] and each of the six
behavioralDna fields lies in [0,100]. -/
theorem projected_scores_bounded (r : AnalysisResponse) (rng : ℕ → ℚ)
    (hsa : ∀ a ∈ r.suspicious_accounts, 0 ≤ a.suspicion_score ∧ a.suspicion_score ≤ 100)
    (hnode : ∀ n ∈ r.graph.nodes,
      (0 ≤ n.suspicion_score ∧ n.suspicion_score ≤ 100) ∧ 0 ≤ n.total_volume)
    (hedge : ∀ e ∈ r.graph.edges, 0 ≤ e.total_amount) :
    ∀ acct ∈ mapApiToAccounts rng r,
      (0 ≤ acct.suspicionScore ∧ acct.suspicionScore ≤ 100)
      ∧ (0 ≤ acct.behavioralDna.velocity ∧ acct.behavioralDna.velocity ≤ 100)
      ∧ (0 ≤ acct.behavioralDna.amtVariance ∧ acct.behavioralDna.amtVariance ≤ 100)
      ∧ (0 ≤ acct.behavioralDna.fanSymmetry ∧ acct.behavioralDna.fanSymmetry ≤ 100)
      ∧ (0 ≤ acct.behavioralDna.temporalCluster ∧ acct.behavioralDna.temporalCluster ≤ 100)
      ∧ (0 ≤ acct.behavioralDna.hopDepth ∧ acct.behavioralDna.hopDepth ≤ 100)
      ∧ (0 ≤ acct.behavioralDna.amtDecay ∧ acct.behavioralDna.amtDecay ≤ 100) := by
  intro acct hacct
  rw [mapApiToAccounts_eq] at hacct
  obtain ⟨i, node, hnodemem, rfl⟩ := mem_mapIdxFrom hacct
  have hconn : ∀ c ∈ (connLookup node.id (buildConnMap r.graph.edges)).getD [], 0 ≤ c.amount := by
    intro c hc
    have hc2 : c ∈ connectionsFor r.graph.edges node.id := by
      rw [← connLookupD_buildConnMap r.graph.edges node.id]
      exact hc
    rcases mem_connectionsFor hc2 with ⟨_, e, hemem, _, _, ham⟩ | ⟨_, e, hemem, _, _, ham⟩ <;>
      exact ham ▸ hedge e hemem
  exact mkAccount_bounds rng r.suspicious_accounts _ _ i node hsa
    (hnode node hnodemem).1 (hnode node hnodemem).2 hconn

theorem projected_scores_bounded_witness :
    (0 ≤ sampleAcct.suspicionScore ∧ sampleAcct.suspicionScore ≤ 100)
    ∧ (0 ≤ sampleAcct.behavioralDna.velocity ∧ sampleAcct.behavioralDna.velocity ≤ 100)
    ∧ (0 ≤ sampleAcct.behavioralDna.amtVariance ∧ sampleAcct.behavioralDna.amtVariance ≤ 100)
    ∧ (0 ≤ sampleAcct.behavioralDna.fanSymmetry ∧ sampleAcct.behavioralDna.fanSymmetry ≤ 100)
    ∧ (0 ≤ sampleAcct.behavioralDna.temporalCluster ∧ sampleAcct.behavioralDna.temporalCluster ≤ 100)
    ∧ (0 ≤ sampleAcct.behavioralDna.hopDepth ∧ sampleAcct.behavioralDna.hopDepth ≤ 100)
    ∧ (0 ≤ sampleAcct.behavioralDna.amtDecay ∧ sampleAcct.behavioralDna.amtDecay ≤ 100) :=
  projected_scores_bounded sampleResponse rng0 (by decide) (by decide) (by decide)
    sampleAcct sampleAcct_mem

/-- C2: the simulation overlay is non-destructive: overlaying a null result
returns the element list unchanged; the overlay class suffix is always empty,
the sim-affected tag, the sim-cycle tag or both in that order; and for a
present result every pre-existing element keeps its position and its data, and
its class string is the base class with only the overlay tag suffix appended. -/
theorem overlay_nondestructive :
    (∀ (acc : List Account) (el : List Element), overlay acc el none = el)
    ∧ (∀ (aff cyc : List String) (id : String),
        simTags aff cyc id = "" ∨ simTags aff cyc id = " sim-affected"
          ∨ simTags aff cyc id = " sim-cycle"
          ∨ simTags aff cyc id = " sim-affected sim-cycle")
    ∧ ∀ (acc : List Account) (el : List Element) (s : SimulationResult) (i : Fin el.length),
        (overlay acc el (some s))[(i : ℕ)]?
          = some ⟨(el.get i).data,
              (el.get i).classes ++ simTags (affectedIds s) (cycleIds s) (el.get i).data.elemId⟩ := by
  refine ⟨fun acc el => rfl, ?_, ?_⟩
  · intro aff cyc id
    rw [simTags]
    split_ifs
    · right; right; right; rfl
    · right; left; rfl
    · right; right; left; rfl
    · left; rfl
  · intro acc el s i
    have hlen1 : (i : ℕ) < (el ++ senderNodes acc s).length := by
      rw [List.length_append]
      omega
    have hlen2 : (i : ℕ) < (el ++ senderNodes acc s ++ receiverNodes acc s).length := by
      rw [List.length_append, List.length_append]
      omega
    show ((el ++ senderNodes acc s ++ receiverNodes acc s ++ [simEdgeElem s]).map (tagElem s))[(i : ℕ)]?
      = _
    rw [List.getElem?_map, List.getElem?_append, if_pos hlen2, List.getElem?_append,
      if_pos hlen1, List.getElem?_append, if_pos i.isLt, List.getElem?_eq_getElem i.isLt]
    rfl

/-- C3 counterexample: two runs of the mapper on the identical response, with
distinct Math.random draws and distinct projection clocks, give different
Account collections (avgHoldTime) and different Transaction collections
(timestamp), so the collections are not identical field for field. -/
theorem mapper_rerun_differs :
    mapApiToAccounts (fun _ => 0) sampleResponse
      ≠ mapApiToAccounts (fun _ => 1 / 2) sampleResponse
    ∧ mapApiToTransactions "2025-01-01T00:00:00.000Z" sampleResponse
      ≠ mapApiToTransactions "2025-01-01T00:00:01.000Z" sampleResponse := by
  constructor
  · intro h
    have h2 : ((mapApiToAccounts (fun _ => 0) sampleResponse).headD dummyAccount).networkStats.avgHoldTime
        = ((mapApiToAccounts (fun _ => 1 / 2) sampleResponse).headD dummyAccount).networkStats.avgHoldTime := by
      rw [h]
    have e1 : ((mapApiToAccounts (fun _ => 0) sampleResponse).headD dummyAccount).networkStats.avgHoldTime
        = 1 := by with_unfolding_all rfl
    have e2 : ((mapApiToAccounts (fun _ => 1 / 2) sampleResponse).headD dummyAccount).networkStats.avgHoldTime
        = 13 := by with_unfolding_all rfl
    rw [e1, e2] at h2
    norm_num at h2
  · intro h
    have h2 : ((mapApiToTransactions "2025-01-01T00:00:00.000Z" sampleResponse).headD sampleTx).timestamp
        = ((mapApiToTransactions "2025-01-01T00:00:01.000Z" sampleResponse).headD sampleTx).timestamp := by
      rw [h]
    have e1 : ((mapApiToTransactions "2025-01-01T00:00:00.000Z" sampleResponse).headD sampleTx).timestamp
        = "2025-01-01T00:00:00.000Z" := rfl
    have e2 : ((mapApiToTransactions "2025-01-01T00:00:01.000Z" sampleResponse).headD sampleTx).timestamp
        = "2025-01-01T00:00:01.000Z" := rfl
    rw [e1, e2] at h2
    exact absurd h2 (by decide)

/-- C3 amended: re-running the Mapper on the identical response yields Account,
FraudRing and Transaction collections that are identical field for field except
the two per-call placeholders: Account.networkStats.avgHoldTime (randomized
per call) and Transaction.timestamp (the projection clock); mapApiToRings takes
no per-call state at all. -/
theorem mapper_rerun_identical_modulo_placeholders (r : AnalysisResponse)
    (rng1 rng2 : ℕ → ℚ) (now1 now2 : String) :
    (mapApiToAccounts rng1 r).map scrubAccount = (mapApiToAccounts rng2 r).map scrubAccount
    ∧ mapApiToRings r = mapApiToRings r
    ∧ (mapApiToTransactions now1 r).map scrubTransaction
        = (mapApiToTransactions now2 r).map scrubTransaction := by
  refine ⟨?_, rfl, ?_⟩
  · rw [mapApiToAccounts_eq, mapApiToAccounts_eq, mapIdxFrom_map, mapIdxFrom_map]
    congr 1
  · rw [mapApiToTransactions_eq, mapApiToTransactions_eq, mapIdxFrom_map, mapIdxFrom_map]
    congr 1

/-- C10: the mappers never write to the analysis response they are given: in
the state-passing embedding that threads the response through every statement
of the three mappers, the final response state is the initial one, so the
stored response that the export feature serializes is exactly the object the
engine returned. -/
theorem mapper_preserves_response (r : AnalysisResponse) (rng : ℕ → ℚ) (now : String) :
    (mapApiToAccountsRun rng r).2 = r
    ∧ (mapApiToRingsRun r).2 = r
    ∧ (mapApiToTransactionsRun now r).2 = r := by
  refine ⟨?_, rfl, rfl⟩
  rw [mapApiToAccountsRun_eq]

theorem elemNodeIds_buildBase (accounts : List Account) (transactions : List Transaction)
    (filterRingsOnly : Bool) :
    elemNodeIds (buildBase accounts transactions filterRingsOnly)
      = (activeAccountsOf accounts filterRingsOnly).map (fun a => a.id) := by
  rw [buildBase, elemNodeIds, List.filterMap_append]
  have h1 : ∀ l : List Account,
      List.filterMap (fun el =>
        match el.data with
        | ElemData.node i _ _ _ => some i
        | ElemData.edge _ _ _ _ => none) (l.map accountNodeElem) = l.map (fun a => a.id) := by
    intro l
    induction l with
    | nil => rfl
    | cons a as ih => simp [accountNodeElem, ih]
  have h2 : ∀ l : List Transaction,
      List.filterMap (fun el =>
        match el.data with
        | ElemData.node i _ _ _ => some i
        | ElemData.edge _ _ _ _ => none) (l.map txEdgeElem) = [] := by
    intro l
    induction l with
    | nil => rfl
    | cons t ts ih => simp [txEdgeElem, ih]
  rw [h1, h2, List.append_nil]

theorem any_id_iff (active : List Account) (x : String) :
    active.any (fun a => decide (a.id = x)) = true ↔ x ∈ active.map (fun a => a.id) := by
  rw [List.any_eq_true]
  constructor
  · rintro ⟨a, ha, hx⟩
    rw [decide_eq_true_eq] at hx
    exact List.mem_map.mpr ⟨a, ha, hx⟩
  · intro h
    obtain ⟨a, ha, hx⟩ := List.mem_map.mp h
    exact ⟨a, ha, by rw [decide_eq_true_eq]; exact hx⟩

/-- C6: the graph model builder never returns a dangling edge: every edge
element of the built element list has both endpoints among the node-element
ids of the same list, for every value of the rings-only filter; and with the
filter on, the node-element ids are exactly the ids of the accounts whose
ringId is a non-empty string. -/
theorem build_no_dangling_edges (accounts : List Account) (transactions : List Transaction)
    (filterRingsOnly : Bool) :
    (∀ el ∈ buildBase accounts transactions filterRingsOnly,
      ∀ eid src tgt fr, el.data = ElemData.edge eid src tgt fr →
        src ∈ elemNodeIds (buildBase accounts transactions filterRingsOnly)
        ∧ tgt ∈ elemNodeIds (buildBase accounts transactions filterRingsOnly))
    ∧ elemNodeIds (buildBase accounts transactions true)
        = (accounts.filter (fun a => optStrTruthy a.ringId)).map (fun a => a.id) := by
  constructor
  · intro el hel eid src tgt fr hdata
    rw [buildBase] at hel
    rcases List.mem_append.mp hel with h | h
    · obtain ⟨a, ha, rfl⟩ := List.mem_map.mp h
      exact absurd hdata (by simp [accountNodeElem])
    · obtain ⟨t, ht, rfl⟩ := List.mem_map.mp h
      obtain ⟨hmem, hcond⟩ := List.mem_filter.mp ht
      rw [Bool.and_eq_true] at hcond
      obtain ⟨hs, ht2⟩ := hcond
      rw [any_id_iff] at hs ht2
      have hinj : t.source = src ∧ t.target = tgt := by
        have h2 := hdata
        rw [txEdgeElem] at h2
        obtain ⟨h3, h4, h5, h6⟩ := ElemData.edge.inj h2
        exact ⟨h4, h5⟩
      rw [elemNodeIds_buildBase, ← hinj.1, ← hinj.2]
      exact ⟨hs, ht2⟩
  · rw [elemNodeIds_buildBase, activeAccountsOf]
    simp

theorem build_no_dangling_edges_witness :
    ("A" ∈ elemNodeIds (buildBase (mapApiToAccounts rng0 sampleResponse)
        (mapApiToTransactions sampleNow sampleResponse) false)
      ∧ "B" ∈ elemNodeIds (buildBase (mapApiToAccounts rng0 sampleResponse)
        (mapApiToTransactions sampleNow sampleResponse) false)) := by
  have h := (build_no_dangling_edges (mapApiToAccounts rng0 sampleResponse)
    (mapApiToTransactions sampleNow sampleResponse) false).1
    (txEdgeElem ((mapApiToTransactions sampleNow sampleResponse).headD sampleTx))
    (by
      rw [buildBase]
      refine List.mem_append.mpr (Or.inr (List.mem_map.mpr
        ⟨(mapApiToTransactions sampleNow sampleResponse).headD sampleTx, ?_, rfl⟩))
      refine List.mem_filter.mpr ⟨headD_mem _ _ (by decide), by decide⟩)
    "TX_000000" "A" "B" true rfl
  exact h

theorem networkElements_some (accounts : List Account) (transactions : List Transaction)
    (filterRingsOnly : Bool) (s : SimulationResult) :
    networkElements accounts transactions filterRingsOnly (some s)
      = ((buildBase accounts transactions filterRingsOnly
          ++ senderNodes (activeAccountsOf accounts filterRingsOnly) s
          ++ receiverNodes (activeAccountsOf accounts filterRingsOnly) s)
          ++ [simEdgeElem s]).map (tagElem s) := rfl

theorem countP_isSimEdge_map_tag (s : SimulationResult) (l : List Element) :
    (l.map (tagElem s)).countP isSimEdgeElem = l.countP isSimEdgeElem := by
  rw [List.countP_map]
  rfl

/-- C7: for every non-null simulation result the overlay appends exactly one
synthetic edge, with the fixed id SIM_EDGE and base class sim-edge, from the
hypothetical sender to the hypothetical receiver, whether or not a real edge
between the pair exists; and a sim-node element (risk 0, no ring id) for the
sender, and one for the receiver, is synthesized exactly when no node element
with that id exists in the base element list. -/
theorem overlay_sim_edge_and_nodes (accounts : List Account) (transactions : List Transaction)
    (filterRingsOnly : Bool) (s : SimulationResult) :
    (networkElements accounts transactions filterRingsOnly (some s)).countP isSimEdgeElem
        = (buildBase accounts transactions filterRingsOnly).countP isSimEdgeElem + 1
    ∧ (∃ el ∈ networkElements accounts transactions filterRingsOnly (some s),
        el.data = ElemData.edge "SIM_EDGE" s.hypothetical_tx.sender_id
            s.hypothetical_tx.receiver_id false
        ∧ el.classes = "sim-edge" ++ simTags (affectedIds s) (cycleIds s) "SIM_EDGE")
    ∧ (s.hypothetical_tx.sender_id ∉ elemNodeIds (buildBase accounts transactions filterRingsOnly)
        ↔ ∃ el ∈ networkElements accounts transactions filterRingsOnly (some s),
            el.data = ElemData.node s.hypothetical_tx.sender_id 0 none
              (jsSliceLast 6 s.hypothetical_tx.sender_id)
            ∧ el.classes = "sim-node"
                ++ simTags (affectedIds s) (cycleIds s) s.hypothetical_tx.sender_id)
    ∧ (s.hypothetical_tx.receiver_id ∉ elemNodeIds (buildBase accounts transactions filterRingsOnly)
        ↔ ∃ el ∈ networkElements accounts transactions filterRingsOnly (some s),
            el.data = ElemData.node s.hypothetical_tx.receiver_id 0 none
              (jsSliceLast 6 s.hypothetical_tx.receiver_id)
            ∧ el.classes = "sim-node"
                ++ simTags (affectedIds s) (cycleIds s) s.hypothetical_tx.receiver_id) := by
  refine ⟨?_, ?_, ?_, ?_⟩
  · rw [networkElements_some, countP_isSimEdge_map_tag, List.countP_append, List.countP_append,
      List.countP_append]
    have hs : (senderNodes (activeAccountsOf accounts filterRingsOnly) s).countP isSimEdgeElem = 0 := by
      rw [senderNodes]
      split_ifs <;> rfl
    have hr : (receiverNodes (activeAccountsOf accounts filterRingsOnly) s).countP isSimEdgeElem = 0 := by
      rw [receiverNodes]
      split_ifs <;> rfl
    have he : List.countP isSimEdgeElem [simEdgeElem s] = 1 := rfl
    rw [hs, hr, he]
  · refine ⟨tagElem s (simEdgeElem s), ?_, rfl, rfl⟩
    rw [networkElements_some]
    exact List.mem_map.mpr ⟨simEdgeElem s,
      List.mem_append_right _ (List.mem_singleton_self _), rfl⟩
  · constructor
    · intro hno
      rw [elemNodeIds_buildBase] at hno
      have hany : ¬((activeAccountsOf accounts filterRingsOnly).any
          (fun a => decide (a.id = s.hypothetical_tx.sender_id)) = true) := by
        rw [any_id_iff]
        exact hno
      refine ⟨tagElem s (simNodeElem s.hypothetical_tx.sender_id), ?_, rfl, rfl⟩
      rw [networkElements_some]
      refine List.mem_map.mpr ⟨simNodeElem s.hypothetical_tx.sender_id, ?_, rfl⟩
      refine List.mem_append_left _ (List.mem_append_left _ (List.mem_append_right _ ?_))
      rw [senderNodes, if_neg hany]
      exact List.mem_singleton_self _
    · rintro ⟨el, hel, hdata, hclasses⟩
      rw [networkElements_some] at hel
      obtain ⟨e0, he0, rfl⟩ := List.mem_map.mp hel
      rcases List.mem_append.mp he0 with h3 | h3
      · rcases List.mem_append.mp h3 with h4 | h4
        · rcases List.mem_append.mp h4 with h5 | h5
          · rw [buildBase] at h5
            rcases List.mem_append.mp h5 with h6 | h6
            · obtain ⟨a, ha, rfl⟩ := List.mem_map.mp h6
              have hd2 : ElemData.node a.id a.suspicionScore a.ringId (jsSliceLast 6 a.id)
                  = ElemData.node s.hypothetical_tx.sender_id 0 none
                    (jsSliceLast 6 s.hypothetical_tx.sender_id) := hdata
              obtain ⟨hid, hrisk, hring, hlbl⟩ := ElemData.node.inj hd2
              have hcl : accountClass a ++ simTags (affectedIds s) (cycleIds s) a.id
                  = "sim-node" ++ simTags (affectedIds s) (cycleIds s)
                    s.hypothetical_tx.sender_id := hclasses
              rw [hid] at hcl
              have hclean : accountClass a = "clean" := by
                rw [accountClass, hring, hrisk]
                norm_num [optStrTruthy]
              rw [hclean] at hcl
              have hlen := congrArg String.length hcl
              rw [String.length_append, String.length_append] at hlen
              have l1 : ("clean" : String).length = 5 := rfl
              have l2 : ("sim-node" : String).length = 8 := rfl
              rw [l1, l2] at hlen
              exfalso
              omega
            · obtain ⟨t, ht, rfl⟩ := List.mem_map.mp h6
              exact absurd hdata (by simp [txEdgeElem, tagElem])
          · rw [senderNodes] at h5
            by_cases hany : (activeAccountsOf accounts filterRingsOnly).any
                (fun a => decide (a.id = s.hypothetical_tx.sender_id)) = true
            · rw [if_pos hany] at h5
              cases h5
            · rw [elemNodeIds_buildBase, ← any_id_iff]
              exact hany
        · rw [receiverNodes] at h4
          by_cases hany : (activeAccountsOf accounts filterRingsOnly).any
              (fun a => decide (a.id = s.hypothetical_tx.receiver_id)) = true
          · rw [if_pos hany] at h4
            cases h4
          · rw [if_neg hany] at h4
            rcases List.mem_singleton.mp h4 with rfl
            have hd2 : ElemData.node s.hypothetical_tx.receiver_id 0 none
                  (jsSliceLast 6 s.hypothetical_tx.receiver_id)
                = ElemData.node s.hypothetical_tx.sender_id 0 none
                  (jsSliceLast 6 s.hypothetical_tx.sender_id) := hdata
            obtain ⟨hid, hrisk, hring, hlbl⟩ := ElemData.node.inj hd2
            rw [elemNodeIds_buildBase, ← any_id_iff, ← hid]
            exact hany
      · rcases List.mem_singleton.mp h3 with rfl
        exact absurd hdata (by simp [simEdgeElem, tagElem])
  · constructor
    · intro hno
      rw [elemNodeIds_buildBase] at hno
      have hany : ¬((activeAccountsOf accounts filterRingsOnly).any
          (fun a => decide (a.id = s.hypothetical_tx.receiver_id)) = true) := by
        rw [any_id_iff]
        exact hno
      refine ⟨tagElem s (simNodeElem s.hypothetical_tx.receiver_id), ?_, rfl, rfl⟩
      rw [networkElements_some]
      refine List.mem_map.mpr ⟨simNodeElem s.hypothetical_tx.receiver_id, ?_, rfl⟩
      refine List.mem_append_left _ (List.mem_append_right _ ?_)
      rw [receiverNodes, if_neg hany]
      exact List.mem_singleton_self _
    · rintro ⟨el, hel, hdata, hclasses⟩
      rw [networkElements_some] at hel
      obtain ⟨e0, he0, rfl⟩ := List.mem_map.mp hel
      rcases List.mem_append.mp he0 with h3 | h3
      · rcases List.mem_append.mp h3 with h4 | h4
        · rcases List.mem_append.mp h4 with h5 | h5
          · rw [buildBase] at h5
            rcases List.mem_append.mp h5 with h6 | h6
            · obtain ⟨a, ha, rfl⟩ := List.mem_map.mp h6
              have hd2 : ElemData.node a.id a.suspicionScore a.ringId (jsSliceLast 6 a.id)
                  = ElemData.node s.hypothetical_tx.receiver_id 0 none
                    (jsSliceLast 6 s.hypothetical_tx.receiver_id) := hdata
              obtain ⟨hid, hrisk, hring, hlbl⟩ := ElemData.node.inj hd2
              have hcl : accountClass a ++ simTags (affectedIds s) (cycleIds s) a.id
                  = "sim-node" ++ simTags (affectedIds s) (cycleIds s)
                    s.hypothetical_tx.receiver_id := hclasses
              rw [hid] at hcl
              have hclean : accountClass a = "clean" := by
                rw [accountClass, hring, hrisk]
                norm_num [optStrTruthy]
              rw [hclean] at hcl
              have hlen := congrArg String.length hcl
              rw [String.length_append, String.length_append] at hlen
              have l1 : ("clean" : String).length = 5 := rfl
              have l2 : ("sim-node" : String).length = 8 := rfl
              rw [l1, l2] at hlen
              exfalso
              omega
            · obtain ⟨t, ht, rfl⟩ := List.mem_map.mp h6
              exact absurd hdata (by simp [txEdgeElem, tagElem])
          · rw [senderNodes] at h5
            by_cases hany : (activeAccountsOf accounts filterRingsOnly).any
                (fun a => decide (a.id = s.hypothetical_tx.sender_id)) = true
            · rw [if_pos hany] at h5
              cases h5
            · rw [if_neg hany] at h5
              rcases List.mem_singleton.mp h5 with rfl
              have hd2 : ElemData.node s.hypothetical_tx.sender_id 0 none
                    (jsSliceLast 6 s.hypothetical_tx.sender_id)
                  = ElemData.node s.hypothetical_tx.receiver_id 0 none
                    (jsSliceLast 6 s.hypothetical_tx.receiver_id) := hdata
              obtain ⟨hid, hrisk, hring, hlbl⟩ := ElemData.node.inj hd2
              rw [elemNodeIds_buildBase, ← any_id_iff, ← hid]
              exact hany
        · rw [receiverNodes] at h4
          by_cases hany : (activeAccountsOf accounts filterRingsOnly).any
              (fun a => decide (a.id = s.hypothetical_tx.receiver_id)) = true
          · rw [if_pos hany] at h4
            cases h4
          · rw [elemNodeIds_buildBase, ← any_id_iff]
            exact hany
      · rcases List.mem_singleton.mp h3 with rfl
        exact absurd hdata (by simp [simEdgeElem, tagElem])

theorem overlay_sim_edge_and_nodes_witness :
    (networkElements (mapApiToAccounts rng0 sampleResponse)
        (mapApiToTransactions sampleNow sampleResponse) false (some sampleSim)).countP isSimEdgeElem
      = (buildBase (mapApiToAccounts rng0 sampleResponse)
        (mapApiToTransactions sampleNow sampleResponse) false).countP isSimEdgeElem + 1 :=
  (overlay_sim_edge_and_nodes (mapApiToAccounts rng0 sampleResponse)
    (mapApiToTransactions sampleNow sampleResponse) false sampleSim).1

/-- C8 counterexample: a raw response with the summary missing but every other
field present does not fail the projection: all three mappers return a full
result, contradicting the claim that a missing summary fails the whole
projection. -/
theorem missing_summary_projection_succeeds :
    rawNoSummary.summary = none
    ∧ (mapApiToAccountsE rng0 rawNoSummary).toOption.isSome = true
    ∧ (mapApiToRingsE rawNoSummary).toOption.isSome = true
    ∧ (mapApiToTransactionsE sampleNow rawNoSummary).toOption.isSome = true :=
  ⟨rfl, rfl, rfl, rfl⟩

/-- C8 amended: a response missing the graph fails the account and transaction
mappers (property access on the missing field throws), so no partial entities
are produced there; a missing summary does not fail the mappers, which never
read it — instead the upload screen result logging, which runs inside its try
block before the app transitions to the analyzed view, throws on the summary
access. -/
theorem malformed_response_failure_behavior (r : RawResponse) (rng : ℕ → ℚ) (now : String) :
    (r.graph = none →
      (mapApiToAccountsE rng r).toOption = none
      ∧ (mapApiToTransactionsE now r).toOption = none)
    ∧ (r.summary = none → (uploadSummaryLogsE r).toOption = none) := by
  constructor
  · intro h
    constructor
    · cases hsa : r.suspicious_accounts with
      | none =>
        simp [mapApiToAccountsE, requireField, hsa, Bind.bind, Except.bind, Except.toOption]
      | some sa =>
        simp [mapApiToAccountsE, requireField, hsa, h, Bind.bind, Except.bind, Except.toOption]
    · simp [mapApiToTransactionsE, requireField, h, Bind.bind, Except.bind, Except.toOption]
  · intro h
    simp [uploadSummaryLogsE, requireField, h, Bind.bind, Except.bind, Except.toOption]

theorem malformed_response_failure_behavior_witness :
    (mapApiToAccountsE rng0 rawNoGraph).toOption = none
    ∧ (mapApiToTransactionsE sampleNow rawNoGraph).toOption = none
    ∧ (uploadSummaryLogsE rawNoSummary).toOption = none :=
  ⟨((malformed_response_failure_behavior rawNoGraph rng0 sampleNow).1 rfl).1,
   ((malformed_response_failure_behavior rawNoGraph rng0 sampleNow).1 rfl).2,
   (malformed_response_failure_behavior rawNoSummary rng0 sampleNow).2 rfl⟩

/-- C9: a submission with an empty sender, an empty receiver, or an amount that
does not parse to a number strictly greater than zero is rejected by the local
gate and issues no network request; and every submission that does reach the
simulate call has a non-empty sender and receiver and a parsed amount strictly
greater than zero, the request carrying the trimmed ids and that amount. -/
theorem simulator_local_validation (sender receiver amount timestamp : String) :
    ((sender = "" ∨ receiver = "" ∨ ¬ ∃ q, jsParseFloat amount = some q ∧ 0 < q) →
      runSimulationRequest sender receiver amount timestamp = none)
    ∧ (∀ req, runSimulationRequest sender receiver amount timestamp = some req →
        sender ≠ "" ∧ receiver ≠ "" ∧ ∃ q, jsParseFloat amount = some q ∧ 0 < q
          ∧ req.sender_id = jsTrim sender ∧ req.receiver_id = jsTrim receiver ∧ req.amount = q) := by
  have htrim : jsTrim "" = "" := rfl
  constructor
  · intro h
    have hcs : canSubmit sender receiver amount = false := by
      rcases h with h | h | h
      · subst h
        rw [canSubmit]
        simp [htrim]
      · subst h
        rw [canSubmit]
        simp [htrim]
      · rw [canSubmit]
        cases hp : jsParseFloat amount with
        | none => simp
        | some q =>
          have hq : ¬(0 < q) := fun hq => h ⟨q, hp, hq⟩
          simp [hq]
    rw [runSimulationRequest]
    simp [hcs]
  · intro req hreq
    rw [runSimulationRequest] at hreq
    by_cases hcs : canSubmit sender receiver amount = true
    · rw [if_pos hcs] at hreq
      rw [canSubmit, Bool.and_eq_true, Bool.and_eq_true] at hcs
      obtain ⟨⟨hs, hr⟩, hm⟩ := hcs
      rw [decide_eq_true_eq] at hs hr
      cases hp : jsParseFloat amount with
      | none =>
        rw [hp] at hm
        cases hm
      | some q =>
        rw [hp] at hm
        rw [decide_eq_true_eq] at hm
        have hreq2 := Option.some.inj hreq
        refine ⟨?_, ?_, q, rfl, hm, ?_, ?_, ?_⟩
        · intro h0
          subst h0
          exact hs htrim
        · intro h0
          subst h0
          exact hr htrim
        · rw [← hreq2]
        · rw [← hreq2]
        · rw [← hreq2]
          show (jsParseFloat amount).getD 0 = q
          rw [hp]
          rfl
    · rw [if_neg hcs] at hreq
      cases hreq

theorem simulator_local_validation_witness :
    runSimulationRequest "" "ACC_B" "250" "" = none
    ∧ runSimulationRequest "ACC_A" "ACC_B" "-5" "" = none := by
  constructor
  · exact (simulator_local_validation "" "ACC_B" "250" "").1 (Or.inl rfl)
  · refine (simulator_local_validation "ACC_A" "ACC_B" "-5" "").1 (Or.inr (Or.inr ?_))
    rintro ⟨q, hq, hpos⟩
    have hv : jsParseFloat "-5" = some (-5) := by with_unfolding_all rfl
    rw [hv] at hq
    have h5 := Option.some.inj hq
    rw [← h5] at hpos
    norm_num at hpos
